import Mathlib

/-
Shallow embedding of the command-line parameter registry and parsing engine
of `src/CommandLineParser.hpp` (namespace CommandLineParser).

Modelling conventions:
* Tokens are `String`s; the argument vector is a `List String` (the C++
  iterator pair [first, last) over `std::vector<std::string_view>`).
* Exceptions (`CLParseError`, `CLSetupError`) become an `Except CLErr` result.
  `std::map::at` on a missing key would raise `std::out_of_range`, which is
  neither CL error; it is modelled by the distinguished `CLErr.lookupError`.
* Typed value conversion (`do_read`, delegated per the spec to a pluggable
  hook) is out of scope; a stored value is modelled as the raw token string.
* Descriptor objects are mutated through registry pointers in C++; here the
  registry stores the descriptors by value and updates them functionally.
* `std::map` keeps its keys in sorted order; the descriptor table `m_args`
  (whose iteration order is observable in `parse`'s final validation and
  in `is_ambiguous`) is modelled as a list kept sorted by key.
-/

namespace CommandLine

/-- The two CL error classes of the source (`CLParseError`, `CLSetupError`),
plus `lookupError` standing for the `std::out_of_range` that `m_args.at`
would raise on a key absent from the descriptor table. -/
inductive CLErr where
  | parseError (msg : String)
  | setupError (msg : String)
  | lookupError
deriving Repr, DecidableEq

/-- A named parameter descriptor: `NamedParameterBase` together with the
state of its value-storing implementation (`NamedRuntimeParameterImpl` /
`NamedFixedParameterImpl`).  `min_values`/`max_values` are the arity bounds
returned by `get_min_arg_count`/`get_max_arg_count`; `values` is the stored
ordered sequence (`m_values`), `none` while disengaged. -/
structure NamedParam where
  short_name : String
  long_name : String
  descr : String
  required : Bool
  min_values : Nat
  max_values : Nat
  set_by_user : Bool := false
  values : Option (List String) := none
deriving Repr, DecidableEq

/-- A positional parameter group: `PositionalParameterBase` with a
list-style value store (ordered sequence, replaced on each read). -/
structure PosParam where
  descr : String
  required : Bool
  min_values : Nat
  max_values : Nat
  set_by_user : Bool := false
  values : Option (List String) := none
deriving Repr, DecidableEq

/-- `ParameterBase::is_variable_length`: the arity bounds differ. -/
def NamedParam.is_variable_length (p : NamedParam) : Bool :=
  p.min_values != p.max_values

/-- `ParameterBase::is_variable_length` for the positional group. -/
def PosParam.is_variable_length (p : PosParam) : Bool :=
  p.min_values != p.max_values

/-- `get_representation_name`: the long name if present, else the short name. -/
def get_representation_name (p : NamedParam) : String :=
  if p.long_name = "" then p.short_name else p.long_name

/-- The value store produced by the list-style `read` implementations
(`NamedRuntimeParameterImpl::read` and the general
`NamedFixedParameterImpl::read`): `m_values.reset()` followed by one
`push_back` per token, the vector being created lazily, so an empty token
range leaves the store disengaged. -/
def listRead (tokens : List String) : Option (List String) :=
  if tokens.isEmpty then none else some tokens

/-- `ParameterBase::read` on a named descriptor: run the implementation's
read over the token range, then set `m_set_by_user = true`. -/
def NamedParam.readTokens (p : NamedParam) (tokens : List String) : NamedParam :=
  { p with values := listRead tokens, set_by_user := true }

/-- `ParameterBase::read` on the positional group: run the implementation's
read over the token range, then set `m_set_by_user = true`.  Note the flag
is set whenever `read` returns, even for an empty token range. -/
def PosParam.readTokens (p : PosParam) (tokens : List String) : PosParam :=
  { p with values := listRead tokens, set_by_user := true }

/-- `std::string_view::starts_with`, implemented over the character list so
that it evaluates by definitional unfolding. -/
def starts_with (s pre : String) : Bool :=
  pre.data.isPrefixOf s.data

/-- `get_number_available_sub_args`: the number of consecutive tokens at
the front of the range that do not start with `'-'`; any token beginning
with `'-'` terminates the count. -/
def get_number_available_sub_args : List String → Nat
  | [] => 0
  | t :: ts => if starts_with t "-" then 0 else get_number_available_sub_args ts + 1

/-- Key of the descriptor table `m_args`: the `(short_name, long_name)` pair. -/
abbrev Key := String × String

/-- `std::map<string_view, string_view>::find`: first entry with the given
key, if any (the name tables never hold duplicate keys). -/
def lookupName : List (String × String) → String → Option String
  | [], _ => none
  | (k, v) :: rest, key => if k = key then some v else lookupName rest key

/-- `std::map<Key, NamedParameterBase*>::find` over the descriptor table. -/
def lookupKey : List (Key × NamedParam) → Key → Option NamedParam
  | [], _ => none
  | (k, v) :: rest, key => if k = key then some v else lookupKey rest key

/-- Strict lexicographic order on descriptor-table keys, matching
`std::map<std::pair<string_view, string_view>>`'s key order. -/
def keyLt (a b : Key) : Bool :=
  if a.1 < b.1 then true
  else if b.1 < a.1 then false
  else decide (a.2 < b.2)

/-- `m_args.emplace`: insert into the sorted descriptor table, keeping the
existing entry when the key is already present. -/
def insertSorted (k : Key) (v : NamedParam) :
    List (Key × NamedParam) → List (Key × NamedParam)
  | [] => [(k, v)]
  | (k', v') :: rest =>
    if keyLt k k' then (k, v) :: (k', v') :: rest
    else if k = k' then (k', v') :: rest
    else (k', v') :: insertSorted k v rest

/-- Write back a descriptor that was mutated through its registry pointer:
replace the entry at `key` (a no-op when `key` is absent). -/
def updateArg (key : Key) (v : NamedParam) :
    List (Key × NamedParam) → List (Key × NamedParam)
  | [] => []
  | (k', v') :: rest =>
    if k' = key then (k', v) :: rest else (k', v') :: updateArg key v rest

/-- The `CommandLineParser` class state: the two name tables, the sorted
descriptor table, and the at-most-one positional group. -/
structure CommandLineParser where
  short_to_long : List (String × String) := []
  long_to_short : List (String × String) := []
  args : List (Key × NamedParam) := []
  positional : Option PosParam := none
deriving Repr, DecidableEq

/-- `CommandLineParser::add(PositionalParameterBase&)`: a `CLSetupError`
when a positional group is already registered, else store the reference.
The pair returns the (possibly mutated) parser state together with the
raised error, if any. -/
def addPositional (p : CommandLineParser) (param : PosParam) :
    CommandLineParser × Option CLErr :=
  match p.positional with
  | some _ => (p, some (.setupError "Positional arguments specified more than once"))
  | none => ({ p with positional := some param }, none)

/-- `CommandLineParser::add(NamedParameterBase&)`: reject a parameter with
both names empty; emplace the non-empty short name (failing if present),
then the non-empty long name (failing if present — note the short-name
entry from this very call is left behind in that case), then insert into
the descriptor table keyed by the `(short, long)` pair. -/
def addNamed (p : CommandLineParser) (param : NamedParam) :
    CommandLineParser × Option CLErr :=
  let short_name := param.short_name
  let long_name := param.long_name
  if short_name = "" ∧ long_name = "" then
    (p, some (.setupError "Argument type requires at least one of a short name or a long name"))
  else if short_name ≠ "" ∧ (lookupName p.short_to_long short_name).isSome then
    (p, some (.setupError s!"Short name {short_name} already specified"))
  else
    let p1 := if short_name ≠ "" then
        { p with short_to_long := (short_name, long_name) :: p.short_to_long }
      else p
    if long_name ≠ "" ∧ (lookupName p1.long_to_short long_name).isSome then
      (p1, some (.setupError s!"Long name {long_name} already specified"))
    else
      let p2 := if long_name ≠ "" then
          { p1 with long_to_short := (long_name, short_name) :: p1.long_to_short }
        else p1
      ({ p2 with args := insertSorted (short_name, long_name) param p2.args }, none)

/-- `parse_named_parameter_sub_arguments`, minus the iterator bookkeeping:
given the resolved descriptor and the tokens after the flag token, count the
available sub-arguments; fail when fewer than `min_values` are available;
otherwise read `min(max_values, available)` tokens into the descriptor.
Returns the updated descriptor and the number of tokens consumed (the C++
returns the iterator `first + 1 + number_to_read`, i.e. the caller resumes
after dropping that many tokens). -/
def parse_named_parameter_sub_arguments (obj : NamedParam) (rest : List String) :
    Except CLErr (NamedParam × Nat) :=
  let min_num := obj.min_values
  let num_available := get_number_available_sub_args rest
  if num_available < min_num then
    .error (.parseError
      s!"Fewer arguments ({num_available}) specified than required ({min_num}) for flag {get_representation_name obj}")
  else
    let number_to_read := Nat.min obj.max_values num_available
    .ok (obj.readTokens (rest.take number_to_read), number_to_read)

/-- One iteration of the scanning loop in `CommandLineParser::parse`, for
the token `arg` followed by `rest`.  Results: `ok none` — break out of the
loop (bare `--`, or a dashless token with a positional group registered);
`error` — the loop throws; `ok (some (key, obj', n))` — a named parameter
was consumed: its table entry becomes `obj'` and scanning resumes after
dropping `n` further tokens. -/
def scanStep (p : CommandLineParser) (arg : String) (rest : List String) :
    Except CLErr (Option (Key × NamedParam × Nat)) :=
  if arg = "--" then
    .ok none
  else if starts_with arg "--" then
    let long_name := arg.drop 2
    match lookupName p.long_to_short long_name with
    | none => .error (.parseError s!"Not a valid argument: --{long_name}")
    | some short_name =>
      match lookupKey p.args (short_name, long_name) with
      | none => .error .lookupError
      | some obj =>
        match parse_named_parameter_sub_arguments obj rest with
        | .error e => .error e
        | .ok (obj', n) => .ok (some ((short_name, long_name), obj', n))
  else if starts_with arg "-" then
    let short_name := arg.drop 1
    match lookupName p.short_to_long short_name with
    | none => .error (.parseError s!"Not a valid argument: -{short_name}")
    | some long_name =>
      match lookupKey p.args (short_name, long_name) with
      | none => .error .lookupError
      | some obj =>
        match parse_named_parameter_sub_arguments obj rest with
        | .error e => .error e
        | .ok (obj', n) => .ok (some ((short_name, long_name), obj', n))
  else
    if p.positional.isSome then .ok none
    else .error (.parseError "There are leftover arguments that could not be parsed")

/-- The scanning loop of `CommandLineParser::parse`, driven by a fuel
argument so that the recursion is structural (each loop iteration consumes
at least the flag token itself, so any fuel at least the token count is
enough; `scanT` below instantiates the fuel with the token count).
Returns the parser state, the remaining tokens at the break (note that on
a bare `--` the `--` token itself is still in the remainder — the loop
breaks without advancing `first`), and, as an instrumentation aid for
stating theorems, the trace of named consumptions `(key, tokens read)` in
order.  The fuel-exhaustion branch is unreachable from `scanT`. -/
def scanGo : Nat → CommandLineParser → List String →
    Except CLErr (CommandLineParser × List String × List (Key × List String))
  | _, p, [] => .ok (p, [], [])
  | 0, _, _ :: _ => .error .lookupError
  | fuel + 1, p, arg :: rest =>
    match scanStep p arg rest with
    | .error e => .error e
    | .ok none => .ok (p, arg :: rest, [])
    | .ok (some (key, obj', n)) =>
      match scanGo fuel { p with args := updateArg key obj' p.args } (rest.drop n) with
      | .error e => .error e
      | .ok (p', rem, tr) => .ok (p', rem, (key, rest.take n) :: tr)

/-- The scanning loop of `CommandLineParser::parse` over a token stream. -/
def scanT (p : CommandLineParser) (tokens : List String) :
    Except CLErr (CommandLineParser × List String × List (Key × List String)) :=
  scanGo tokens.length p tokens

/-- `parse_positionals`: the arity check uses `get_number_available_sub_args`
over the remaining tokens (so the count stops at the first `-`-prefixed
token), failing when it is below `min_values` or above `max_values`; the
read then consumes the whole remaining range `[first, last)`. -/
def parse_positionals (obj : PosParam) (tokens : List String) : Except CLErr PosParam :=
  let min_num := obj.min_values
  let num_available := get_number_available_sub_args tokens
  if num_available < min_num then
    .error (.parseError
      s!"Fewer arguments ({num_available}) specified than required ({min_num}) for positional arguments")
  else
    let max_num := obj.max_values
    if num_available > max_num then
      .error (.parseError
        s!"More arguments ({num_available}) specified than required ({max_num}) for positional arguments")
    else
      .ok (obj.readTokens tokens)

/-- The token-consumption phase of `CommandLineParser::parse`: the scanning
loop, followed by `parse_positionals` on the remainder whenever a
positional group is registered. -/
def consume (p : CommandLineParser) (tokens : List String) :
    Except CLErr CommandLineParser :=
  match scanT p tokens with
  | .error e => .error e
  | .ok (p1, remaining, _) =>
    match p1.positional with
    | none => .ok p1
    | some pos =>
      match parse_positionals pos remaining with
      | .error e => .error e
      | .ok pos' => .ok { p1 with positional := some pos' }

/-- The ASCII single-quote character that the source embeds in its
missing-required-parameter diagnostics. -/
def sq : String := String.singleton (Char.ofNat 39)

/-- The final-validation phase of `CommandLineParser::parse`: walk the
descriptor table in key order and throw on the first required descriptor
not set by the user; then the analogous check for the positional group. -/
def validate (p : CommandLineParser) : Except CLErr CommandLineParser :=
  match p.args.find? (fun kv => kv.2.required && !kv.2.set_by_user) with
  | some kv =>
    .error (.parseError s!"Required flag {sq}{get_representation_name kv.2}{sq} was not provided")
  | none =>
    match p.positional with
    | some pos =>
      if pos.required && !pos.set_by_user then
        .error (.parseError
          s!"Required positional argument {sq}{pos.descr}{sq} was not provided")
      else .ok p
    | none => .ok p

/-- `CommandLineParser::parse`: token consumption followed by final
validation. -/
def parse (p : CommandLineParser) (tokens : List String) :
    Except CLErr CommandLineParser :=
  match consume p tokens with
  | .error e => .error e
  | .ok p2 => validate p2

/-- `is_ambiguous`: false without a positional group; false when the
positional group is fixed-arity and required; otherwise true exactly when
some registered named parameter is variable-length. -/
def is_ambiguous (p : CommandLineParser) : Bool :=
  match p.positional with
  | none => false
  | some pos =>
    if !pos.is_variable_length && pos.required then false
    else p.args.any (fun kv => kv.2.is_variable_length)

/-- Decidable equality of parse outcomes, for evaluating the engine on
concrete inputs inside proofs. -/
instance {ε α : Type} [DecidableEq ε] [DecidableEq α] : DecidableEq (Except ε α) := fun a b =>
  match a, b with
  | .ok x, .ok y =>
    if h : x = y then .isTrue (by rw [h]) else .isFalse (by intro hc; cases hc; exact h rfl)
  | .error x, .error y =>
    if h : x = y then .isTrue (by rw [h]) else .isFalse (by intro hc; cases hc; exact h rfl)
  | .ok _, .error _ => .isFalse (by intro hc; cases hc)
  | .error _, .ok _ => .isFalse (by intro hc; cases hc)

/-- Success test on a parse outcome (no exception raised). -/
def isOk {α : Type} : Except CLErr α → Bool
  | .ok _ => true
  | .error _ => false

/-- Some registered parameter (named or positional) is required. -/
def anyRequired (p : CommandLineParser) : Bool :=
  p.args.any (fun kv => kv.2.required) ||
    (match p.positional with
     | some pos => pos.required
     | none => false)

/-- Every registered positional group (there is at most one) has
`min_values = 0`. -/
def posMinZero (p : CommandLineParser) : Bool :=
  match p.positional with
  | some pos => pos.min_values == 0
  | none => true

/-- No registered named descriptor is both required and unset. -/
def noRequiredUnsetNamed (p : CommandLineParser) : Bool :=
  p.args.all (fun kv => !(kv.2.required && !kv.2.set_by_user))

/-- A named descriptor in its freshly constructed state (fixture helper). -/
def mkNamed (s l : String) (req : Bool) (mn mx : Nat) : NamedParam :=
  { short_name := s, long_name := l, descr := "", required := req,
    min_values := mn, max_values := mx }

/-- A positional group in its freshly constructed state (fixture helper). -/
def mkPos (d : String) (req : Bool) (mn mx : Nat) : PosParam :=
  { descr := d, required := req, min_values := mn, max_values := mx }

/-- A freshly constructed `CommandLineParser`. -/
def emptyCLP : CommandLineParser := {}

/-- Fixture: one required fixed-arity-1 flag `-n` / `--name`. -/
def cfgName : CommandLineParser := (addNamed emptyCLP (mkNamed "n" "name" true 1 1)).1

/-- Fixture: one optional positional group with arity `[0, 10]`. -/
def cfgOptPos : CommandLineParser := (addPositional emptyCLP (mkPos "files" false 0 10)).1

/-- Fixture: one required fixed-arity positional group `[2, 2]`. -/
def cfgFixedPos : CommandLineParser := (addPositional emptyCLP (mkPos "coords" true 2 2)).1

/-- Fixture: one optional positional group with arity `[0, 1]`. -/
def cfgNarrowPos : CommandLineParser := (addPositional emptyCLP (mkPos "files" false 0 1)).1

/-- Fixture: one required positional group with arity `[0, 5]`. -/
def cfgReqPos0 : CommandLineParser := (addPositional emptyCLP (mkPos "files" true 0 5)).1

/-- Fixture: one optional long-only flag `--out`. -/
def cfgLongOnly : CommandLineParser := (addNamed emptyCLP (mkNamed "" "out" false 1 1)).1

/-- The registry state reached by `cfgName` after parsing
`--name A --name B`: the flag holds only the value of the last occurrence. -/
def resNameB : CommandLineParser :=
  { short_to_long := [("n", "name")], long_to_short := [("name", "n")],
    args := [(("n", "name"),
      { mkNamed "n" "name" true 1 1 with set_by_user := true, values := some ["B"] })],
    positional := none }

/-- Fixture: an optional variable-length flag `-t` / `--tags` `[0, 99]`. -/
def cfgTags : CommandLineParser := (addNamed emptyCLP (mkNamed "t" "tags" false 0 99)).1

/-- Fixture: `cfgTags` plus an optional positional group `[0, 10]`. -/
def cfgAmbig : CommandLineParser := (addPositional cfgTags (mkPos "files" false 0 10)).1

/-! ### Helper lemmas about the registry table operations -/

lemma updateArg_lookup_self (l : List (Key × NamedParam)) (key : Key) (v w : NamedParam)
    (h : lookupKey l key = some w) : lookupKey (updateArg key v l) key = some v := by
  induction l with
  | nil => simp [lookupKey] at h
  | cons hd tl ih =>
    obtain ⟨k', v'⟩ := hd
    by_cases hk : k' = key
    · simp [lookupKey, updateArg, hk]
    · simp [lookupKey, updateArg, hk] at h ⊢
      exact ih h

lemma updateArg_lookup_ne (l : List (Key × NamedParam)) (key : Key) (v : NamedParam)
    (k : Key) (h : k ≠ key) : lookupKey (updateArg key v l) k = lookupKey l k := by
  induction l with
  | nil => simp [updateArg]
  | cons hd tl ih =>
    obtain ⟨k', v'⟩ := hd
    simp only [updateArg]
    by_cases hk : k' = key
    · have hne : ¬ (k' = k) := fun hc => h (hc.symm.trans hk)
      simp only [if_pos hk, lookupKey, if_neg hne]
    · simp only [if_neg hk, lookupKey]
      by_cases hk2 : k' = k
      · simp [hk2]
      · simp [hk2, ih]

lemma insertSorted_mem_self (l : List (Key × NamedParam)) (k : Key) (v : NamedParam)
    (h : lookupKey l k = none) : (k, v) ∈ insertSorted k v l := by
  induction l with
  | nil => simp [insertSorted]
  | cons hd tl ih =>
    obtain ⟨k', v'⟩ := hd
    by_cases hk : k' = k
    · simp [lookupKey, hk] at h
    · simp only [lookupKey, if_neg hk] at h
      by_cases hlt : keyLt k k' = true
      · simp [insertSorted, hlt]
      · have hne : ¬ k = k' := fun hc => hk hc.symm
        simp [insertSorted, hlt, hne]
        exact ih h

/-! ### Helper lemmas about the scanning loop -/

lemma scanGo_nil (fuel : Nat) (p : CommandLineParser) :
    scanGo fuel p [] = .ok (p, [], []) := by
  cases fuel <;> rfl

lemma scanGo_positional (fuel : Nat) :
    ∀ (p : CommandLineParser) (ts : List String) out,
      scanGo fuel p ts = .ok out → out.1.positional = p.positional := by
  induction fuel with
  | zero =>
    intro p ts out h
    cases ts with
    | nil => simp [scanGo] at h; simp [← h]
    | cons a r => simp [scanGo] at h
  | succ f ih =>
    intro p ts out h
    cases ts with
    | nil => simp [scanGo] at h; simp [← h]
    | cons arg rest =>
      rw [scanGo] at h
      cases hs : scanStep p arg rest with
      | error e =>
        simp only [hs] at h
        exact Except.noConfusion h
      | ok o =>
        simp only [hs] at h
        cases o with
        | none => cases h; rfl
        | some trip =>
          obtain ⟨key, obj', n⟩ := trip
          cases hrec : scanGo f { p with args := updateArg key obj' p.args } (rest.drop n) with
          | error e =>
            simp only [hrec] at h
            exact Except.noConfusion h
          | ok out' =>
            simp only [hrec] at h
            cases h
            have hp := ih _ _ _ hrec
            simpa using hp

lemma scanGo_fuel_irrel (fuel₁ : Nat) :
    ∀ (fuel₂ : Nat) (p : CommandLineParser) (ts : List String),
      ts.length ≤ fuel₁ → ts.length ≤ fuel₂ →
      scanGo fuel₁ p ts = scanGo fuel₂ p ts := by
  induction fuel₁ with
  | zero =>
    intro fuel₂ p ts h1 _
    have : ts = [] := List.length_eq_zero.mp (Nat.le_zero.mp h1)
    subst this
    simp [scanGo_nil]
  | succ f ih =>
    intro fuel₂ p ts h1 h2
    cases ts with
    | nil => simp [scanGo_nil]
    | cons arg rest =>
      cases fuel₂ with
      | zero => simp at h2
      | succ g =>
        rw [scanGo, scanGo]
        cases hs : scanStep p arg rest with
        | error e => simp only [hs]
        | ok o =>
          cases o with
          | none => simp only [hs]
          | some trip =>
            obtain ⟨key, obj', n⟩ := trip
            have hlen : (rest.drop n).length ≤ f := by
              simp at h1
              simp [List.length_drop]
              omega
            have hlen2 : (rest.drop n).length ≤ g := by
              simp at h2
              simp [List.length_drop]
              omega
            simp only [hs]
            rw [ih g { p with args := updateArg key obj' p.args } (rest.drop n) hlen hlen2]

lemma parse_named_ok_inv (obj obj' : NamedParam) (rest : List String) (n : Nat)
    (h : parse_named_parameter_sub_arguments obj rest = .ok (obj', n)) :
    obj' = obj.readTokens (rest.take n) ∧
    n = Nat.min obj.max_values (get_number_available_sub_args rest) ∧
    ¬ get_number_available_sub_args rest < obj.min_values := by
  rw [parse_named_parameter_sub_arguments] at h
  by_cases hlt : get_number_available_sub_args rest < obj.min_values
  · simp [hlt] at h
  · simp only [hlt, if_false, if_neg hlt] at h
    cases h
    exact ⟨rfl, rfl, hlt⟩

lemma scanStep_some_inv (p : CommandLineParser) (arg : String) (rest : List String)
    (key : Key) (obj' : NamedParam) (n : Nat)
    (h : scanStep p arg rest = .ok (some (key, obj', n))) :
    ∃ obj, lookupKey p.args key = some obj ∧
      parse_named_parameter_sub_arguments obj rest = .ok (obj', n) := by
  rw [scanStep] at h
  by_cases h1 : arg = "--"
  · simp [h1] at h
  · simp only [if_neg h1] at h
    by_cases h2 : starts_with arg "--" = true
    · simp only [if_pos h2] at h
      cases hl : lookupName p.long_to_short (arg.drop 2) with
      | none => simp [hl] at h
      | some short_name =>
        simp only [hl] at h
        cases ha : lookupKey p.args (short_name, arg.drop 2) with
        | none => simp [ha] at h
        | some obj =>
          simp only [ha] at h
          cases hp : parse_named_parameter_sub_arguments obj rest with
          | error e => simp [hp] at h
          | ok pr =>
            obtain ⟨o2, n2⟩ := pr
            simp only [hp] at h
            cases h
            exact ⟨obj, ha, hp⟩
    · simp only [if_neg h2] at h
      by_cases h3 : starts_with arg "-" = true
      · simp only [if_pos h3] at h
        cases hl : lookupName p.short_to_long (arg.drop 1) with
        | none => simp [hl] at h
        | some long_name =>
          simp only [hl] at h
          cases ha : lookupKey p.args (arg.drop 1, long_name) with
          | none => simp [ha] at h
          | some obj =>
            simp only [ha] at h
            cases hp : parse_named_parameter_sub_arguments obj rest with
            | error e => simp [hp] at h
            | ok pr =>
              obtain ⟨o2, n2⟩ := pr
              simp only [hp] at h
              cases h
              exact ⟨obj, ha, hp⟩
      · by_cases h4 : p.positional.isSome <;> simp [h3, h4] at h

lemma scanGo_preserve (fuel : Nat) :
    ∀ (p : CommandLineParser) (ts : List String) p' rem tr (key : Key),
      scanGo fuel p ts = .ok (p', rem, tr) →
      (∀ e ∈ tr, e.1 ≠ key) →
      lookupKey p'.args key = lookupKey p.args key := by
  induction fuel with
  | zero =>
    intro p ts p' rem tr key h _
    cases ts with
    | nil => rw [scanGo_nil] at h; cases h; rfl
    | cons a r => simp [scanGo] at h
  | succ f ih =>
    intro p ts p' rem tr key h hn
    cases ts with
    | nil => rw [scanGo_nil] at h; cases h; rfl
    | cons arg rest =>
      rw [scanGo] at h
      cases hs : scanStep p arg rest with
      | error e =>
        simp only [hs] at h
        exact Except.noConfusion h
      | ok o =>
        simp only [hs] at h
        cases o with
        | none => cases h; rfl
        | some trip =>
          obtain ⟨key0, obj', n⟩ := trip
          cases hrec : scanGo f { p with args := updateArg key0 obj' p.args } (rest.drop n) with
          | error e =>
            simp only [hrec] at h
            exact Except.noConfusion h
          | ok out' =>
            obtain ⟨p1, rem1, tr1⟩ := out'
            simp only [hrec] at h
            cases h
            have hk0 : key0 ≠ key := hn (key0, rest.take n) (List.mem_cons_self _ _)
            have htl : ∀ e ∈ tr1, e.1 ≠ key :=
              fun e he => hn e (List.mem_cons_of_mem _ he)
            have hstep := ih _ _ _ _ _ key hrec htl
            rw [hstep]
            simpa using updateArg_lookup_ne p.args key0 obj' key (Ne.symm hk0)

lemma scanGo_lastWrite (fuel : Nat) :
    ∀ (p : CommandLineParser) (ts : List String) p' rem tr (key : Key)
      (lastE : Key × List String),
      scanGo fuel p ts = .ok (p', rem, tr) →
      (tr.filter (fun e => decide (e.1 = key))).getLast? = some lastE →
      ∃ obj', lookupKey p'.args key = some obj' ∧
        obj'.values = listRead lastE.2 ∧ obj'.set_by_user = true := by
  induction fuel with
  | zero =>
    intro p ts p' rem tr key lastE h hl
    cases ts with
    | nil => rw [scanGo_nil] at h; cases h; simp at hl
    | cons a r => simp [scanGo] at h
  | succ f ih =>
    intro p ts p' rem tr key lastE h hl
    cases ts with
    | nil => rw [scanGo_nil] at h; cases h; simp at hl
    | cons arg rest =>
      rw [scanGo] at h
      cases hs : scanStep p arg rest with
      | error e =>
        simp only [hs] at h
        exact Except.noConfusion h
      | ok o =>
        simp only [hs] at h
        cases o with
        | none => cases h; simp at hl
        | some trip =>
          obtain ⟨key0, obj', n⟩ := trip
          cases hrec : scanGo f { p with args := updateArg key0 obj' p.args } (rest.drop n) with
          | error e =>
            simp only [hrec] at h
            exact Except.noConfusion h
          | ok out' =>
            obtain ⟨p1, rem1, tr1⟩ := out'
            simp only [hrec] at h
            cases h
            by_cases hk : key0 = key
            · subst hk
              rw [List.filter_cons] at hl
              simp only [decide_eq_true_eq] at hl
              rw [if_pos trivial] at hl
              cases hnil : tr1.filter (fun e => decide (e.1 = key0)) with
              | nil =>
                rw [hnil] at hl
                simp at hl
                obtain ⟨obj0, ha, hp⟩ := scanStep_some_inv p arg rest key0 obj' n hs
                obtain ⟨hobj, _, _⟩ := parse_named_ok_inv obj0 obj' rest n hp
                have htl : ∀ e ∈ tr1, e.1 ≠ key0 := by
                  intro e he
                  have := List.filter_eq_nil_iff.mp hnil e he
                  simpa using this
                have hpres := scanGo_preserve f _ _ _ _ _ key0 hrec htl
                refine ⟨obj', ?_, ?_, ?_⟩
                · rw [hpres]
                  simpa using updateArg_lookup_self p.args key0 obj' obj0 ha
                · rw [hobj, ← hl]
                  rfl
                · rw [hobj]
                  rfl
              | cons e2 l2 =>
                rw [hnil, List.getLast?_cons_cons] at hl
                rw [← hnil] at hl
                exact ih _ _ _ _ _ key0 lastE hrec hl
            · rw [List.filter_cons] at hl
              simp only [decide_eq_true_eq] at hl
              rw [if_neg hk] at hl
              exact ih _ _ _ _ _ key lastE hrec hl

lemma validate_ok (q q' : CommandLineParser) (h : validate q = .ok q') : q' = q := by
  rw [validate] at h
  cases hf : q.args.find? (fun kv => kv.2.required && !kv.2.set_by_user) with
  | some kv =>
    simp only [hf] at h
    exact Except.noConfusion h
  | none =>
    simp only [hf] at h
    cases hpos : q.positional with
    | none =>
      simp only [hpos] at h
      cases h
      rfl
    | some pos =>
      simp only [hpos] at h
      by_cases hr : (pos.required && !pos.set_by_user) = true
      · simp only [if_pos hr] at h
        exact Except.noConfusion h
      · simp only [if_neg hr] at h
        cases h
        rfl

lemma consume_args (p : CommandLineParser) (ts : List String) (p2 : CommandLineParser)
    (p1 : CommandLineParser) (rem : List String) (tr : List (Key × List String))
    (hc : consume p ts = .ok p2) (hscan : scanT p ts = .ok (p1, rem, tr)) :
    p2.args = p1.args := by
  rw [consume, hscan] at hc
  cases hpos : p1.positional with
  | none =>
    simp only [hpos] at hc
    cases hc
    rfl
  | some pos =>
    simp only [hpos] at hc
    cases hpp : parse_positionals pos rem with
    | error e =>
      simp only [hpp] at hc
      exact Except.noConfusion hc
    | ok pos' =>
      simp only [hpp] at hc
      cases hc
      rfl

/-! ### Claim theorems -/

/-- C2 (counterexample): with an optional positional group of arity
`[0, 10]` registered, parsing `["--", "a"]` succeeds but stores the `--`
token itself as the first positional value — the positional candidates are
not only the tokens after `--`, contradicting the claim. -/
theorem dashdash_token_kept_counterexample :
    (parse cfgOptPos ["--", "a"]).map (fun q => q.positional.map PosParam.values) =
      .ok (some (some ["--", "a"])) ∧
    ¬ (parse cfgOptPos ["--", "a"]).map (fun q => q.positional.map PosParam.values) =
      .ok (some (some ["a"])) := by
  constructor <;> decide

/-- C2 (amended): named scanning stops at a bare `--` leaving the `--`
itself in the remainder handed to positional consumption; since `--`
starts with `'-'`, the counted available sub-arguments are always `0`, so
positional consumption succeeds iff `min_values = 0` — regardless of how
many tokens follow the `--` — and on success the `--` token itself (and
everything after it) is read into the positional group. -/
theorem dashdash_scan_stop_amended :
    (∀ (p : CommandLineParser) (rest : List String),
       scanT p ("--" :: rest) = .ok (p, "--" :: rest, [])) ∧
    (∀ (pos : PosParam) (rest : List String),
       parse_positionals pos ("--" :: rest) =
         if 0 < pos.min_values then
           .error (.parseError
             s!"Fewer arguments ({(0 : Nat)}) specified than required ({pos.min_values}) for positional arguments")
         else .ok { pos with values := some ("--" :: rest), set_by_user := true }) := by
  constructor
  · intro p rest
    rw [scanT]
    simp only [List.length_cons]
    rw [scanGo]
    have hstep : scanStep p "--" rest = .ok none := by
      rw [scanStep]
      simp
    simp only [hstep]
  · intro pos rest
    have hav : get_number_available_sub_args ("--" :: rest) = 0 := by
      rw [get_number_available_sub_args]
      have hsw : starts_with "--" "-" = true := by decide
      rw [if_pos hsw]
    simp only [parse_positionals, hav]
    by_cases hm : 0 < pos.min_values
    · rw [if_pos hm, if_pos hm]
    · rw [if_neg hm, if_neg hm]
      have hmx : ¬ 0 > pos.max_values := by omega
      rw [if_neg hmx]
      rfl

/-- C3: the positional arity check counts the remainder with
`get_number_available_sub_args`, which stops at the first `-`-prefixed
token, while the read then consumes every remaining token.  With a
required `[2, 2]` positional group and remainder `["a", "-x"]` (2 tokens
remaining), the parse fails reporting only 1 supplied; with a `[0, 1]`
group and remainder `["a", "-x", "b"]`, the check passes on a count of 1
yet 3 tokens are stored, exceeding `max_values`. -/
theorem positional_arity_count_stops_at_dash :
    parse cfgFixedPos ["a", "-x"] =
      .error (.parseError
        "Fewer arguments (1) specified than required (2) for positional arguments") ∧
    (parse cfgNarrowPos ["a", "-x", "b"]).map (fun q => q.positional.map PosParam.values) =
      .ok (some (some ["a", "-x", "b"])) := by
  constructor <;> decide

/-- C4: in every successfully parsed token stream, a named parameter that
was consumed at least once ends up holding exactly the values supplied
with its last occurrence (the trace records each consumption in scan
order); values from earlier occurrences are discarded, not appended. -/
theorem repeated_flag_last_occurrence_wins (p : CommandLineParser) (ts : List String)
    (pF p1 : CommandLineParser) (rem : List String) (tr : List (Key × List String))
    (key : Key) (lastE : Key × List String)
    (hparse : parse p ts = .ok pF)
    (hscan : scanT p ts = .ok (p1, rem, tr))
    (hlast : (tr.filter (fun e => decide (e.1 = key))).getLast? = some lastE) :
    ∃ obj', lookupKey pF.args key = some obj' ∧
      obj'.values = listRead lastE.2 ∧ obj'.set_by_user = true := by
  rw [parse] at hparse
  cases hc : consume p ts with
  | error e =>
    rw [hc] at hparse
    exact Except.noConfusion hparse
  | ok p2 =>
    rw [hc] at hparse
    have hq : pF = p2 := validate_ok _ _ hparse
    subst hq
    have hargs : pF.args = p1.args := consume_args p ts pF p1 rem tr hc hscan
    rw [scanT] at hscan
    obtain ⟨obj', hlk, hv, hs⟩ := scanGo_lastWrite ts.length p ts p1 rem tr key lastE hscan hlast
    exact ⟨obj', by rw [hargs]; exact hlk, hv, hs⟩

/-- C4 (witness): `--name A --name B` on a fixed-arity-1 required flag
ends with the flag holding exactly `["B"]`. -/
theorem repeated_flag_last_occurrence_wins_witness :
    ∃ obj', lookupKey resNameB.args ("n", "name") = some obj' ∧
      obj'.values = listRead ["B"] ∧ obj'.set_by_user = true :=
  repeated_flag_last_occurrence_wins cfgName ["--name", "A", "--name", "B"]
    resNameB resNameB [] [(("n", "name"), ["A"]), (("n", "name"), ["B"])]
    ("n", "name") (("n", "name"), ["B"]) (by decide) (by decide) (by decide)

/-- C8: `is_ambiguous` returns true exactly when a positional group is
registered, that group is variable-length or optional (never when it is
fixed-arity and required), and some registered named parameter is
variable-length. -/
theorem is_ambiguous_characterization (p : CommandLineParser) :
    is_ambiguous p = true ↔
      ∃ pos, p.positional = some pos ∧
        (pos.is_variable_length = true ∨ pos.required = false) ∧
        ∃ kv ∈ p.args, kv.2.is_variable_length = true := by
  rw [is_ambiguous]
  cases hpos : p.positional with
  | none => simp
  | some pos =>
    dsimp only
    by_cases hfix : (!pos.is_variable_length && pos.required) = true
    · rw [if_pos hfix]
      simp only [Bool.and_eq_true, Bool.not_eq_true'] at hfix
      simp [hfix.1, hfix.2]
    · rw [if_neg hfix]
      simp only [Bool.and_eq_true, Bool.not_eq_true'] at hfix
      rw [Decidable.not_and_iff_or_not] at hfix
      constructor
      · intro h
        rw [List.any_eq_true] at h
        obtain ⟨kv, hm, hv⟩ := h
        refine ⟨pos, rfl, ?_, kv, hm, hv⟩
        rcases hfix with hf | hf
        · exact Or.inl (by simpa using hf)
        · exact Or.inr (by simpa using hf)
      · rintro ⟨pos2, hp2, _, kv, hm, hv⟩
        cases hp2
        rw [List.any_eq_true]
        exact ⟨kv, hm, hv⟩

/-- C8 (witness): an optional variable-length positional group next to a
variable-length flag is ambiguous. -/
theorem is_ambiguous_characterization_witness :
    is_ambiguous cfgAmbig = true :=
  (is_ambiguous_characterization cfgAmbig).mpr
    ⟨mkPos "files" false 0 10, by decide, Or.inr (by decide),
     (("t", "tags"), mkNamed "t" "tags" false 0 99), by decide, by decide⟩

/-- C9: registration of a named parameter is not atomic on failure — when
the short name is non-empty and fresh but the long name is non-empty and
already registered, `add` raises a `CLSetupError` after having already
inserted the short-name entry, leaving the short-name table modified. -/
theorem add_named_partial_mutation_on_long_dup (p : CommandLineParser) (param : NamedParam)
    (h1 : param.short_name ≠ "")
    (h2 : lookupName p.short_to_long param.short_name = none)
    (h3 : param.long_name ≠ "")
    (h4 : (lookupName p.long_to_short param.long_name).isSome = true) :
    addNamed p param =
      ({ p with short_to_long := (param.short_name, param.long_name) :: p.short_to_long },
       some (.setupError s!"Long name {param.long_name} already specified")) := by
  simp [addNamed, h1, h2, h3, h4]

/-- C9 (witness): adding short name `o` with long name `out` to a registry already holding a
long-only `--out` fails with a setup error but leaves `("o", "out")` in
the short-name table. -/
theorem add_named_partial_mutation_on_long_dup_witness :
    addNamed cfgLongOnly (mkNamed "o" "out" false 1 1) =
      ({ cfgLongOnly with short_to_long := ("o", "out") :: cfgLongOnly.short_to_long },
       some (.setupError "Long name out already specified")) :=
  add_named_partial_mutation_on_long_dup cfgLongOnly (mkNamed "o" "out" false 1 1)
    (by decide) (by decide) (by decide) (by decide)

lemma addNamed_bothEmpty (p : CommandLineParser) (param : NamedParam)
    (h1 : param.short_name = "") (h2 : param.long_name = "") :
    addNamed p param =
      (p, some (.setupError
        "Argument type requires at least one of a short name or a long name")) := by
  simp [addNamed, h1, h2]

lemma addNamed_shortDup (p : CommandLineParser) (param : NamedParam)
    (h1 : param.short_name ≠ "")
    (h2 : (lookupName p.short_to_long param.short_name).isSome = true) :
    addNamed p param =
      (p, some (.setupError s!"Short name {param.short_name} already specified")) := by
  simp [addNamed, h1, h2]

lemma addNamed_longDup (p : CommandLineParser) (param : NamedParam)
    (hB : ¬(param.short_name ≠ "" ∧ (lookupName p.short_to_long param.short_name).isSome = true))
    (hl : param.long_name ≠ "")
    (hdup : (lookupName p.long_to_short param.long_name).isSome = true) :
    (addNamed p param).2 =
      some (.setupError s!"Long name {param.long_name} already specified") := by
  by_cases hs : param.short_name = ""
  · simp [addNamed, hs, hl, hdup]
  · have hB2 : (lookupName p.short_to_long param.short_name).isSome = false := by
      simpa [hs] using hB
    simp [addNamed, hs, hl, hdup, hB2]

lemma addNamed_success (p : CommandLineParser) (param : NamedParam)
    (hA : ¬(param.short_name = "" ∧ param.long_name = ""))
    (hB : ¬(param.short_name ≠ "" ∧ (lookupName p.short_to_long param.short_name).isSome = true))
    (hC : ¬(param.long_name ≠ "" ∧ (lookupName p.long_to_short param.long_name).isSome = true)) :
    addNamed p param =
      ({ short_to_long :=
           if param.short_name ≠ "" then (param.short_name, param.long_name) :: p.short_to_long
           else p.short_to_long,
         long_to_short :=
           if param.long_name ≠ "" then (param.long_name, param.short_name) :: p.long_to_short
           else p.long_to_short,
         args := insertSorted (param.short_name, param.long_name) param p.args,
         positional := p.positional }, none) := by
  by_cases hs : param.short_name = ""
  · have hl : param.long_name ≠ "" := fun hl => hA ⟨hs, hl⟩
    have hC2 : (lookupName p.long_to_short param.long_name).isSome = false := by
      simpa [hl] using hC
    simp [addNamed, hs, hl, hC2]
  · have hB2 : (lookupName p.short_to_long param.short_name).isSome = false := by
      simpa [hs] using hB
    by_cases hl : param.long_name = ""
    · simp [addNamed, hs, hl, hB2]
    · have hC2 : (lookupName p.long_to_short param.long_name).isSome = false := by
        simpa [hl] using hC
      simp [addNamed, hs, hl, hB2, hC2]

/-- C7: positional registration fails with a `CLSetupError` exactly when a
positional group is already registered, and otherwise stores the group;
named registration fails with a `CLSetupError` exactly when both names are
empty, or a non-empty short or long name already exists in the
corresponding name table; otherwise it succeeds, inserts each non-empty
name into its name table, and emplaces the descriptor into the descriptor
table keyed by the `(short, long)` pair. -/
theorem add_registration_spec :
    (∀ (p : CommandLineParser) (param : PosParam), p.positional = none →
       addPositional p param = ({ p with positional := some param }, none)) ∧
    (∀ (p : CommandLineParser) (param : PosParam) (pos : PosParam), p.positional = some pos →
       addPositional p param =
         (p, some (.setupError "Positional arguments specified more than once"))) ∧
    (∀ (p : CommandLineParser) (param : NamedParam),
       (addNamed p param).2 = none ↔
         ¬((param.short_name = "" ∧ param.long_name = "") ∨
           (param.short_name ≠ "" ∧ (lookupName p.short_to_long param.short_name).isSome = true) ∨
           (param.long_name ≠ "" ∧ (lookupName p.long_to_short param.long_name).isSome = true))) ∧
    (∀ (p : CommandLineParser) (param : NamedParam) (e : CLErr),
       (addNamed p param).2 = some e → ∃ msg, e = .setupError msg) ∧
    (∀ (p : CommandLineParser) (param : NamedParam), (addNamed p param).2 = none →
       (addNamed p param).1.args = insertSorted (param.short_name, param.long_name) param p.args ∧
       (param.short_name ≠ "" →
         (addNamed p param).1.short_to_long =
           (param.short_name, param.long_name) :: p.short_to_long) ∧
       (param.long_name ≠ "" →
         (addNamed p param).1.long_to_short =
           (param.long_name, param.short_name) :: p.long_to_short) ∧
       (lookupKey p.args (param.short_name, param.long_name) = none →
         ((param.short_name, param.long_name), param) ∈ (addNamed p param).1.args)) := by
  refine ⟨?_, ?_, ?_, ?_, ?_⟩
  · intro p param h
    rw [addPositional]
    simp only [h]
  · intro p param pos h
    rw [addPositional]
    simp only [h]
  · intro p param
    by_cases hA : param.short_name = "" ∧ param.long_name = ""
    · rw [addNamed_bothEmpty p param hA.1 hA.2]
      simp [hA]
    · by_cases hB : param.short_name ≠ "" ∧ (lookupName p.short_to_long param.short_name).isSome = true
      · rw [addNamed_shortDup p param hB.1 hB.2]
        simp [hB]
      · by_cases hC : param.long_name ≠ "" ∧ (lookupName p.long_to_short param.long_name).isSome = true
        · rw [addNamed_longDup p param hB hC.1 hC.2]
          simp [hC]
        · rw [addNamed_success p param hA hB hC]
          simp [hA, hB, hC]
  · intro p param e h
    by_cases hA : param.short_name = "" ∧ param.long_name = ""
    · rw [addNamed_bothEmpty p param hA.1 hA.2] at h
      simp only at h
      exact ⟨_, (Option.some.inj h).symm⟩
    · by_cases hB : param.short_name ≠ "" ∧ (lookupName p.short_to_long param.short_name).isSome = true
      · rw [addNamed_shortDup p param hB.1 hB.2] at h
        simp only at h
        exact ⟨_, (Option.some.inj h).symm⟩
      · by_cases hC : param.long_name ≠ "" ∧ (lookupName p.long_to_short param.long_name).isSome = true
        · rw [addNamed_longDup p param hB hC.1 hC.2] at h
          exact ⟨_, (Option.some.inj h).symm⟩
        · rw [addNamed_success p param hA hB hC] at h
          simp at h
  · intro p param h
    by_cases hA : param.short_name = "" ∧ param.long_name = ""
    · rw [addNamed_bothEmpty p param hA.1 hA.2] at h
      simp at h
    · by_cases hB : param.short_name ≠ "" ∧ (lookupName p.short_to_long param.short_name).isSome = true
      · rw [addNamed_shortDup p param hB.1 hB.2] at h
        simp at h
      · by_cases hC : param.long_name ≠ "" ∧ (lookupName p.long_to_short param.long_name).isSome = true
        · rw [addNamed_longDup p param hB hC.1 hC.2] at h
          simp at h
        · rw [addNamed_success p param hA hB hC]
          refine ⟨rfl, ?_, ?_, ?_⟩
          · intro hsn
            simp [hsn]
          · intro hln
            simp [hln]
          · intro hfresh
            exact insertSorted_mem_self p.args (param.short_name, param.long_name) param hfresh

/-- C7 (witness): registering a second positional group fails; registering
the flag `-n`/`--name` into an empty registry succeeds and lands in the
descriptor table under the key `("n", "name")`. -/
theorem add_registration_spec_witness :
    addPositional cfgOptPos (mkPos "xs" false 0 1) =
      (cfgOptPos, some (.setupError "Positional arguments specified more than once")) ∧
    (addNamed emptyCLP (mkNamed "n" "name" true 1 1)).2 = none ∧
    ((("n", "name"), mkNamed "n" "name" true 1 1) ∈
      (addNamed emptyCLP (mkNamed "n" "name" true 1 1)).1.args) := by
  refine ⟨?_, ?_, ?_⟩
  · exact add_registration_spec.2.1 cfgOptPos (mkPos "xs" false 0 1)
      (mkPos "files" false 0 10) (by decide)
  · exact (add_registration_spec.2.2.1 emptyCLP (mkNamed "n" "name" true 1 1)).mpr (by decide)
  · exact ((add_registration_spec.2.2.2.2 emptyCLP (mkNamed "n" "name" true 1 1))
      (by decide)).2.2.2 (by decide)

/-- C10: `read` marks a parameter set-by-user whenever it returns, even on
an empty token range; every successful positional consumption therefore
leaves the positional group set, and in particular a required positional
group with `min_values = 0` (and no missing required named parameter)
passes final validation on the empty token stream. -/
theorem read_sets_set_by_user_unconditionally :
    (∀ (pos : PosParam) (tokens : List String),
       (pos.readTokens tokens).set_by_user = true) ∧
    (∀ (pos pos' : PosParam) (ts : List String),
       parse_positionals pos ts = .ok pos' → pos'.set_by_user = true) ∧
    (∀ (p : CommandLineParser) (ts : List String) (p' : CommandLineParser),
       parse p ts = .ok p' → p.positional.isSome = true →
       ∃ pos', p'.positional = some pos' ∧ pos'.set_by_user = true) ∧
    (∀ (p : CommandLineParser) (pos : PosParam),
       p.positional = some pos → pos.min_values = 0 → pos.required = true →
       (∀ kv ∈ p.args, ¬(kv.2.required = true ∧ kv.2.set_by_user = false)) →
       ∃ p', parse p [] = .ok p') := by
  have hread : ∀ (pos pos' : PosParam) (ts : List String),
      parse_positionals pos ts = .ok pos' → pos'.set_by_user = true := by
    intro pos pos' ts h
    rw [parse_positionals] at h
    by_cases h1 : get_number_available_sub_args ts < pos.min_values
    · rw [if_pos h1] at h
      exact Except.noConfusion h
    · rw [if_neg h1] at h
      by_cases h2 : get_number_available_sub_args ts > pos.max_values
      · rw [if_pos h2] at h
        exact Except.noConfusion h
      · rw [if_neg h2] at h
        cases h
        rfl
  refine ⟨fun pos tokens => rfl, hread, ?_, ?_⟩
  · intro p ts p' hp hsome
    rw [parse] at hp
    cases hc : consume p ts with
    | error e =>
      rw [hc] at hp
      exact Except.noConfusion hp
    | ok p2 =>
      rw [hc] at hp
      have hval : p' = p2 := validate_ok _ _ hp
      subst hval
      rw [consume] at hc
      cases hscan : scanT p ts with
      | error e =>
        rw [hscan] at hc
        exact Except.noConfusion hc
      | ok trip =>
        obtain ⟨p1, rem, tr⟩ := trip
        simp only [hscan] at hc
        rw [scanT] at hscan
        have hpos1 : p1.positional = p.positional := by
          simpa using scanGo_positional ts.length p ts (p1, rem, tr) hscan
        obtain ⟨pos9, hpos9⟩ := Option.isSome_iff_exists.mp hsome
        simp only [hpos1.trans hpos9] at hc
        cases hpp : parse_positionals pos9 rem with
        | error e =>
          simp only [hpp] at hc
          exact Except.noConfusion hc
        | ok pos' =>
          simp only [hpp] at hc
          cases hc
          exact ⟨pos', rfl, hread pos9 pos' rem hpp⟩
  · intro p pos hpos hmin hreq hnone
    have hscan : scanT p [] = .ok (p, [], []) := rfl
    have hpp : parse_positionals pos [] = .ok (pos.readTokens []) := by
      rw [parse_positionals]
      simp only [show get_number_available_sub_args [] = 0 from rfl]
      rw [if_neg (by omega), if_neg (by omega)]
    have hcons : consume p [] = .ok { p with positional := some (pos.readTokens []) } := by
      rw [consume, hscan]
      simp only [hpos, hpp]
    have hfind : p.args.find? (fun kv => kv.2.required && !kv.2.set_by_user) = none := by
      rw [List.find?_eq_none]
      intro kv hm
      simp only [Bool.and_eq_true, Bool.not_eq_true']
      exact hnone kv hm
    have hfin : parse p [] = .ok { p with positional := some (pos.readTokens []) } := by
      rw [parse, hcons]
      simp only [validate]
      simp only [show ({ p with positional := some (pos.readTokens []) }).args = p.args
        from rfl, hfind]
      rw [if_neg (by simp [PosParam.readTokens])]
    exact ⟨_, hfin⟩

/-- C10 (witness): the required `[0, 5]` positional group parses the empty
stream without error. -/
theorem read_sets_set_by_user_unconditionally_witness :
    ∃ p', parse cfgReqPos0 [] = .ok p' :=
  read_sets_set_by_user_unconditionally.2.2.2 cfgReqPos0 (mkPos "files" true 0 5)
    (by decide) (by decide) (by decide) (by decide)

/-- C1: for a resolved named parameter, `available` counts the consecutive
tokens directly after the flag token that do not start with `-`; when
`available < min_values` the engine raises a `ParseError` carrying the
supplied count, the required count and the long-else-short representation
name; otherwise it reads exactly `min(max_values, available)` tokens into
the parameter (marking it set by the user) and the scanning loop resumes
at the first token after those consumed, leaving the rest for subsequent
scanning. -/
theorem named_flag_consumption_spec :
    (∀ rest : List String,
      get_number_available_sub_args rest =
        (rest.takeWhile (fun t => !starts_with t "-")).length) ∧
    (∀ obj : NamedParam, obj.long_name ≠ "" → get_representation_name obj = obj.long_name) ∧
    (∀ obj : NamedParam, obj.long_name = "" → get_representation_name obj = obj.short_name) ∧
    (∀ (obj : NamedParam) (rest : List String),
      get_number_available_sub_args rest < obj.min_values →
        parse_named_parameter_sub_arguments obj rest =
          .error (.parseError
            s!"Fewer arguments ({get_number_available_sub_args rest}) specified than required ({obj.min_values}) for flag {get_representation_name obj}")) ∧
    (∀ (obj : NamedParam) (rest : List String),
      ¬ get_number_available_sub_args rest < obj.min_values →
        parse_named_parameter_sub_arguments obj rest =
          .ok (obj.readTokens
                 (rest.take (Nat.min obj.max_values (get_number_available_sub_args rest))),
               Nat.min obj.max_values (get_number_available_sub_args rest))) ∧
    (∀ (p : CommandLineParser) (tok : String) (rest : List String) (short_name : String)
       (obj obj' : NamedParam) (n : Nat),
      tok ≠ "--" → starts_with tok "--" = true →
      lookupName p.long_to_short (tok.drop 2) = some short_name →
      lookupKey p.args (short_name, tok.drop 2) = some obj →
      parse_named_parameter_sub_arguments obj rest = .ok (obj', n) →
      scanT p (tok :: rest) =
        (match scanT { p with args := updateArg (short_name, tok.drop 2) obj' p.args }
            (rest.drop n) with
         | .error e => .error e
         | .ok (p', rem2, tr) => .ok (p', rem2, ((short_name, tok.drop 2), rest.take n) :: tr))) := by
  refine ⟨?_, ?_, ?_, ?_, ?_, ?_⟩
  · intro rest
    induction rest with
    | nil => rfl
    | cons t ts ih =>
      rw [get_number_available_sub_args, List.takeWhile_cons]
      by_cases hsw : starts_with t "-" = true
      · simp [hsw]
      · simp only [Bool.not_eq_true] at hsw
        simp [hsw, ih]
  · intro obj h
    rw [get_representation_name, if_neg h]
  · intro obj h
    rw [get_representation_name, if_pos h]
  · intro obj rest h
    simp only [parse_named_parameter_sub_arguments]
    rw [if_pos h]
  · intro obj rest h
    simp only [parse_named_parameter_sub_arguments]
    rw [if_neg h]
  · intro p tok rest short_name obj obj' n h1 h2 h3 h4 h5
    have hstep : scanStep p tok rest = .ok (some ((short_name, tok.drop 2), obj', n)) := by
      rw [scanStep, if_neg h1, if_pos h2]
      simp only [h3, h4, h5]
    simp only [scanT, List.length_cons]
    rw [scanGo]
    simp only [hstep]
    rw [scanGo_fuel_irrel rest.length (rest.drop n).length _ (rest.drop n)
      (by simp [List.length_drop]) (le_refl _)]

/-- C1 (witness): `--name` with one following value token on a required
fixed-arity-1 flag reads exactly that token; `--name` with none available
fails naming the flag by its long name. -/
theorem named_flag_consumption_spec_witness :
    parse_named_parameter_sub_arguments (mkNamed "n" "name" true 1 1) [] =
      .error (.parseError "Fewer arguments (0) specified than required (1) for flag name") ∧
    parse_named_parameter_sub_arguments (mkNamed "n" "name" true 1 1) ["A", "B"] =
      .ok ((mkNamed "n" "name" true 1 1).readTokens ["A"], 1) ∧
    scanT cfgName ["--name", "A"] =
      (match scanT { cfgName with
          args := updateArg ("n", "name")
            ((mkNamed "n" "name" true 1 1).readTokens ["A"]) cfgName.args } [] with
       | .error e => .error e
       | .ok (p', rem2, tr) => .ok (p', rem2, (("n", "name"), ["A"]) :: tr)) := by
  refine ⟨?_, ?_, ?_⟩
  · have h := named_flag_consumption_spec.2.2.2.1 (mkNamed "n" "name" true 1 1) [] (by decide)
    rw [h]
    decide
  · have h := named_flag_consumption_spec.2.2.2.2.1 (mkNamed "n" "name" true 1 1) ["A", "B"]
      (by decide)
    rw [h]
    decide
  · have h := named_flag_consumption_spec.2.2.2.2.2 cfgName "--name" ["A"] "n"
      (mkNamed "n" "name" true 1 1)
      ((mkNamed "n" "name" true 1 1).readTokens ["A"]) 1
      (by decide) (by decide) (by decide) (by decide) (by decide)
    exact h

/-- C5 (counterexample): for the configuration holding only a required
positional group of arity `[0, 5]`, parsing the empty token stream
succeeds although a required parameter is registered — refuting
"succeeds iff no registered parameter is required". -/
theorem parse_empty_required_counterexample :
    ¬ (isOk (parse cfgReqPos0 []) = true ↔ anyRequired cfgReqPos0 = false) := by
  decide

/-- C5 (amended): on a fresh registration (no descriptor already set by
the user), `parse` of the empty token stream succeeds iff no *named*
parameter is required and the positional group, when registered, has
`min_values = 0`; the positional group's own `required` flag is
irrelevant, because its read marks it set even on zero tokens, while an
optional positional group with `min_values ≥ 1` still fails the arity
check. -/
theorem parse_empty_success_iff_amended (p : CommandLineParser)
    (hfresh : ∀ kv ∈ p.args, kv.2.set_by_user = false) :
    isOk (parse p []) = true ↔
      ((∀ kv ∈ p.args, kv.2.required = false) ∧ posMinZero p = true) := by
  have hscan : scanT p [] = .ok (p, [], []) := rfl
  cases hpos : p.positional with
  | none =>
    have hcons : consume p [] = .ok p := by
      rw [consume, hscan]
      simp only [hpos]
    rw [parse, hcons]
    simp only [validate]
    cases hfind : p.args.find? (fun kv => kv.2.required && !kv.2.set_by_user) with
    | some kv =>
      simp only [hfind]
      constructor
      · intro h
        simp [isOk] at h
      · rintro ⟨hreq, _⟩
        have hmem := List.mem_of_find?_eq_some hfind
        have hpred := List.find?_some hfind
        have hkv := hreq kv hmem
        simp [hkv] at hpred
    | none =>
      simp only [hfind, hpos]
      constructor
      · intro _
        refine ⟨?_, by simp [posMinZero, hpos]⟩
        intro kv hmem
        have hnone := List.find?_eq_none.mp hfind kv hmem
        have hset := hfresh kv hmem
        simp [hset] at hnone
        exact hnone
      · intro _
        simp [isOk]
  | some pos =>
    by_cases hm : 0 < pos.min_values
    · have hcons : consume p [] =
          .error (.parseError
            s!"Fewer arguments ({(0 : Nat)}) specified than required ({pos.min_values}) for positional arguments") := by
        rw [consume, hscan]
        simp only [hpos]
        rw [parse_positionals]
        simp only [show get_number_available_sub_args [] = 0 from rfl]
        rw [if_pos hm]
      rw [parse, hcons]
      constructor
      · intro h
        simp [isOk] at h
      · rintro ⟨_, hz⟩
        rw [posMinZero, hpos] at hz
        simp at hz
        omega
    · have hpp : parse_positionals pos [] = .ok (pos.readTokens []) := by
        rw [parse_positionals]
        simp only [show get_number_available_sub_args [] = 0 from rfl]
        rw [if_neg hm, if_neg (show ¬ 0 > pos.max_values by omega)]
      have hcons : consume p [] = .ok { p with positional := some (pos.readTokens []) } := by
        rw [consume, hscan]
        simp only [hpos, hpp]
      rw [parse, hcons]
      simp only [validate]
      cases hfind : p.args.find? (fun kv => kv.2.required && !kv.2.set_by_user) with
      | some kv =>
        simp only [show ({ p with positional := some (pos.readTokens []) }).args = p.args
          from rfl, hfind]
        constructor
        · intro h
          simp [isOk] at h
        · rintro ⟨hreq, _⟩
          have hmem := List.mem_of_find?_eq_some hfind
          have hpred := List.find?_some hfind
          have hkv := hreq kv hmem
          simp [hkv] at hpred
      | none =>
        simp only [show ({ p with positional := some (pos.readTokens []) }).args = p.args
          from rfl, hfind]
        rw [if_neg (by simp [PosParam.readTokens])]
        constructor
        · intro _
          refine ⟨?_, ?_⟩
          · intro kv hmem
            have hnone := List.find?_eq_none.mp hfind kv hmem
            have hset := hfresh kv hmem
            simp [hset] at hnone
            exact hnone
          · rw [posMinZero, hpos]
            simp
            omega
        · intro _
          simp [isOk]

/-- C5 (amended, witness): the required `[0, 5]` positional group alone
parses the empty stream successfully. -/
theorem parse_empty_success_iff_amended_witness :
    isOk (parse cfgReqPos0 []) = true :=
  (parse_empty_success_iff_amended cfgReqPos0 (by decide)).mpr ⟨by decide, by decide⟩

/-- C6: `parse` is token consumption followed by final validation; a
required-and-unset named descriptor exists iff the validation walk finds
one, in which case validation fails with a `ParseError` naming the first
such descriptor by its long-else-short representation name; when no named
descriptor is missing but the positional group is required and unset,
validation fails naming the positional group by its description. -/
theorem final_validation_missing_required :
    (∀ (p : CommandLineParser) (ts : List String),
       parse p ts = match consume p ts with
         | .error e => .error e
         | .ok p2 => validate p2) ∧
    (∀ q : CommandLineParser,
       (∃ kv ∈ q.args, kv.2.required = true ∧ kv.2.set_by_user = false) ↔
         (q.args.find? (fun kv => kv.2.required && !kv.2.set_by_user)).isSome = true) ∧
    (∀ (q : CommandLineParser) kv,
       q.args.find? (fun kv => kv.2.required && !kv.2.set_by_user) = some kv →
         validate q = .error (.parseError
           s!"Required flag {sq}{get_representation_name kv.2}{sq} was not provided")) ∧
    (∀ (q : CommandLineParser) (pos : PosParam),
       q.args.find? (fun kv => kv.2.required && !kv.2.set_by_user) = none →
       q.positional = some pos → pos.required = true → pos.set_by_user = false →
         validate q = .error (.parseError
           s!"Required positional argument {sq}{pos.descr}{sq} was not provided")) := by
  refine ⟨?_, ?_, ?_, ?_⟩
  · intro p ts
    rfl
  · intro q
    rw [List.find?_isSome]
    constructor
    · rintro ⟨kv, hm, h1, h2⟩
      exact ⟨kv, hm, by simp [h1, h2]⟩
    · rintro ⟨kv, hm, hp⟩
      simp only [Bool.and_eq_true, Bool.not_eq_true'] at hp
      exact ⟨kv, hm, hp.1, hp.2⟩
  · intro q kv h
    rw [validate]
    simp only [h]
  · intro q pos hfind hpos hr hs
    rw [validate]
    simp only [hfind, hpos]
    rw [if_pos (by simp [hr, hs])]

/-- C6 (witness): the unparsed required flag `--name` and the unparsed
required positional group each produce their missing-required error. -/
theorem final_validation_missing_required_witness :
    validate cfgName = .error (.parseError
      s!"Required flag {sq}name{sq} was not provided") ∧
    validate cfgFixedPos = .error (.parseError
      s!"Required positional argument {sq}coords{sq} was not provided") := by
  constructor
  · have h := final_validation_missing_required.2.2.1 cfgName
      (("n", "name"), mkNamed "n" "name" true 1 1) (by decide)
    rw [h]
    decide
  · have h := final_validation_missing_required.2.2.2 cfgFixedPos
      (mkPos "coords" true 2 2) (by decide) (by decide) (by decide) (by decide)
    rw [h]
    decide

end CommandLine
